import Mathlib

/-!
Verification of the address-enrichment pipeline in
`scripts/providers_pipeline_google.py`.

The Python source is shallowly embedded: pure functions become Lean
functions on `String` / `List`; the thread-serialized rate limiter becomes
a sequential transition system over rational time; HTTP interactions are
abstracted as explicit response schedules passed in as arguments; fallible
paths return `Except`.  Machine floats never carry semantic weight in the
claims proved here (coordinates are moved around as strings, exactly as the
source does), so strings and `ℚ` (for sleep durations / timestamps) suffice.
-/

set_option maxHeartbeats 1000000

namespace Pipeline

/-! ### Address key normalizer (`normalize_address_key`, lines 33-37)

`normalize_address_key` does `s.strip()`, `re.sub(r"\s+", " ", s)`, `s.upper()`.
Whitespace is modeled as Python's ASCII `\s` class (space, tab, LF, VT, FF, CR);
uppercasing as ASCII `str.upper` (the roster data is ASCII; non-ASCII code
points are left unchanged, which matches Python on every character where the
two functions both act). -/

/-- Python `\s` on the ASCII range: space, `\t`, `\n`, `\x0b`, `\x0c`, `\r`. -/
def isWs (c : Char) : Bool :=
  c.toNat = 32 || c.toNat = 9 || c.toNat = 10 || c.toNat = 11 || c.toNat = 12 || c.toNat = 13

/-- ASCII uppercasing of one character (Python `str.upper` restricted to ASCII). -/
def upperChar (c : Char) : Char :=
  if 97 ≤ c.toNat ∧ c.toNat ≤ 122 then Char.ofNat (c.toNat - 32) else c

/-- Python `str.strip()` on a character list: drop leading and trailing whitespace. -/
def stripChars (l : List Char) : List Char :=
  ((l.dropWhile isWs).reverse.dropWhile isWs).reverse

/-- Python `re.sub(r"\s+", " ", ·)`: replace each maximal whitespace run by one
space.  The flag records whether we are inside a run whose space has already
been emitted. -/
def collapseAux : Bool → List Char → List Char
  | _, [] => []
  | inRun, c :: cs =>
    if isWs c then
      if inRun then collapseAux true cs else ' ' :: collapseAux true cs
    else c :: collapseAux false cs

/-- `normalize_address_key` (lines 33-37): strip, collapse whitespace runs to one
space, uppercase. -/
def normalize_address_key (s : String) : String :=
  ⟨(collapseAux false (stripChars s.data)).map upperChar⟩

/-- Python `str.strip()` on strings. -/
def stripS (s : String) : String := ⟨stripChars s.data⟩

/-! #### Facts about the normalizer -/

lemma toNat_ofNat_valid {n : ℕ} (h : n.isValidChar) : (Char.ofNat n).toNat = n := by
  simp only [Char.ofNat, h, dif_pos, Char.ofNatAux, Char.toNat]
  have hlt : n < 2 ^ 32 := by
    rcases h with h | h <;> omega
  simp [UInt32.ofNat', UInt32.toNat, Nat.mod_eq_of_lt hlt]

lemma upperChar_toNat (c : Char) :
    (upperChar c).toNat = if 97 ≤ c.toNat ∧ c.toNat ≤ 122 then c.toNat - 32 else c.toNat := by
  unfold upperChar
  split
  · next h => exact toNat_ofNat_valid (Or.inl (by omega))
  · rfl

lemma upperChar_eq_self_of_not (c : Char) (h : ¬(97 ≤ c.toNat ∧ c.toNat ≤ 122)) :
    upperChar c = c := by
  unfold upperChar
  exact if_neg h

lemma upperChar_idem (c : Char) : upperChar (upperChar c) = upperChar c := by
  have h := upperChar_toNat c
  apply upperChar_eq_self_of_not
  by_cases hc : 97 ≤ c.toNat ∧ c.toNat ≤ 122
  · rw [if_pos hc] at h
    omega
  · rw [if_neg hc] at h
    omega

lemma isWs_upperChar (c : Char) : isWs (upperChar c) = isWs c := by
  have h := upperChar_toNat c
  by_cases hc : 97 ≤ c.toNat ∧ c.toNat ≤ 122
  · rw [if_pos hc] at h
    have h1 : isWs (upperChar c) = false := by
      simp only [isWs, h, Bool.or_eq_false_iff, decide_eq_false_iff_not]
      omega
    have h2 : isWs c = false := by
      simp only [isWs, Bool.or_eq_false_iff, decide_eq_false_iff_not]
      omega
    rw [h1, h2]
  · rw [if_neg hc] at h
    simp only [isWs, h]

lemma upperChar_space : upperChar ' ' = ' ' := by decide

/-- Normal form for `collapseAux`: every whitespace character is a single `' '`
not preceded by whitespace (the flag records whether the previous character was
whitespace). -/
def collapsed : Bool → List Char → Prop
  | _, [] => True
  | prevWs, c :: cs => (isWs c = true → c = ' ' ∧ prevWs = false) ∧ collapsed (isWs c) cs

lemma collapseAux_ws_inRun (c : Char) (cs : List Char) (h : isWs c = true) :
    collapseAux true (c :: cs) = collapseAux true cs := by
  simp only [collapseAux, h, if_true]

lemma collapseAux_ws_start (c : Char) (cs : List Char) (h : isWs c = true) :
    collapseAux false (c :: cs) = ' ' :: collapseAux true cs := by
  simp only [collapseAux, h, if_true, Bool.false_eq_true, if_false]

lemma collapseAux_not_ws (c : Char) (cs : List Char) (h : isWs c = false) (b : Bool) :
    collapseAux b (c :: cs) = c :: collapseAux false cs := by
  simp only [collapseAux, h, Bool.false_eq_true, if_false]

lemma collapseAux_collapsed (l : List Char) : ∀ b, collapsed b (collapseAux b l) := by
  induction l with
  | nil => intro b; simp [collapseAux, collapsed]
  | cons c cs ih =>
    intro b
    by_cases hws : isWs c = true
    · cases b with
      | true => rw [collapseAux_ws_inRun c cs hws]; exact ih true
      | false =>
        rw [collapseAux_ws_start c cs hws]
        refine ⟨fun _ => ⟨rfl, rfl⟩, ?_⟩
        have hsp : isWs ' ' = true := by decide
        rw [hsp]
        exact ih true
    · have hws' : isWs c = false := by simpa using hws
      rw [collapseAux_not_ws c cs hws' b]
      exact ⟨fun h => absurd h hws, by rw [hws']; exact ih false⟩

lemma collapsed_fixpoint : ∀ (l : List Char) (b : Bool), collapsed b l → collapseAux b l = l := by
  intro l
  induction l with
  | nil => intro b _; rfl
  | cons c cs ih =>
    intro b h
    obtain ⟨h1, h2⟩ := h
    by_cases hws : isWs c = true
    · obtain ⟨hc, hb⟩ := h1 hws
      subst hc hb
      rw [collapseAux_ws_start _ cs hws, ih true (by rwa [hws] at h2)]
    · have hws' : isWs c = false := by simpa using hws
      rw [collapseAux_not_ws c cs hws' b, ih false (by rwa [hws'] at h2)]

lemma collapsed_map_upper : ∀ (l : List Char) (b : Bool),
    collapsed b l → collapsed b (l.map upperChar) := by
  intro l
  induction l with
  | nil => intro b _; simp [collapsed]
  | cons c cs ih =>
    intro b h
    obtain ⟨h1, h2⟩ := h
    simp only [List.map_cons]
    refine ⟨?_, ?_⟩
    · intro hws
      rw [isWs_upperChar] at hws
      obtain ⟨hc, hb⟩ := h1 hws
      exact ⟨by rw [hc, upperChar_space], hb⟩
    · rw [isWs_upperChar]
      exact ih (isWs c) h2

/-- No leading whitespace. -/
def headNotWs (l : List Char) : Prop := ∀ c, l.head? = some c → isWs c = false

/-- No trailing whitespace. -/
def lastNotWs (l : List Char) : Prop := ∀ c, l.getLast? = some c → isWs c = false

lemma dropWhile_head_not (p : Char → Bool) :
    ∀ (l : List Char) (c : Char), (l.dropWhile p).head? = some c → p c = false := by
  intro l
  induction l with
  | nil => intro c h; simp [List.dropWhile] at h
  | cons a l ih =>
    intro c h
    by_cases hp : p a = true
    · rw [List.dropWhile_cons_of_pos hp] at h
      exact ih c h
    · rw [List.dropWhile_cons_of_neg hp] at h
      simp only [List.head?_cons, Option.some.injEq] at h
      subst h
      exact Bool.eq_false_iff.mpr hp

lemma dropWhile_spec (p : α → Bool) (l : List α) :
    ∃ k, k ≤ l.length ∧ l.dropWhile p = l.drop k ∧ ∀ x ∈ l.take k, p x = true := by
  induction l with
  | nil => exact ⟨0, by simp⟩
  | cons a l ih =>
    by_cases hp : p a = true
    · obtain ⟨k, hk, hdW, htk⟩ := ih
      refine ⟨k + 1, by simpa using hk, ?_, ?_⟩
      · rw [List.dropWhile_cons_of_pos hp]
        simpa using hdW
      · intro x hx
        simp only [List.take_succ_cons, List.mem_cons] at hx
        rcases hx with rfl | hx
        · exact hp
        · exact htk x hx
    · exact ⟨0, by simp, List.dropWhile_cons_of_neg hp, by simp⟩

lemma head?_take_pos (l : List α) (n : ℕ) (h : 0 < n) : (l.take n).head? = l.head? := by
  cases l with
  | nil => simp
  | cons a l =>
    cases n with
    | zero => omega
    | succ m => simp

lemma headNotWs_stripChars (l : List Char) : headNotWs (stripChars l) := by
  intro c hc
  unfold stripChars at hc
  obtain ⟨k, hk, hdW, -⟩ := dropWhile_spec isWs (l.dropWhile isWs).reverse
  rw [hdW, List.reverse_drop, List.length_reverse, List.reverse_reverse] at hc
  rcases Nat.eq_zero_or_pos ((l.dropWhile isWs).length - k) with h0 | h0
  · rw [h0] at hc; simp at hc
  · rw [head?_take_pos _ _ h0] at hc
    exact dropWhile_head_not isWs l c hc

lemma lastNotWs_stripChars (l : List Char) : lastNotWs (stripChars l) := by
  intro c hc
  unfold stripChars at hc
  rw [List.getLast?_reverse] at hc
  exact dropWhile_head_not isWs (l.dropWhile isWs).reverse c hc

lemma getLast?_cons_ne_nil (a : Char) (l : List Char) (h : l ≠ []) :
    (a :: l).getLast? = l.getLast? := by
  cases l with
  | nil => exact absurd rfl h
  | cons b m => exact List.getLast?_cons_cons

lemma collapseAux_ne_nil : ∀ (l : List Char) (b : Bool) (c : Char),
    isWs c = false → c ∈ l → collapseAux b l ≠ [] := by
  intro l
  induction l with
  | nil => intro b c _ hc; simp at hc
  | cons a l ih =>
    intro b c hws hc
    by_cases ha : isWs a = true
    · have hcl : c ∈ l := by
        rcases List.mem_cons.1 hc with rfl | h
        · rw [ha] at hws; cases hws
        · exact h
      cases b with
      | true => rw [collapseAux_ws_inRun a l ha]; exact ih true c hws hcl
      | false => rw [collapseAux_ws_start a l ha]; simp
    · have ha' : isWs a = false := by simpa using ha
      rw [collapseAux_not_ws a l ha' b]
      simp

lemma headNotWs_collapseAux (l : List Char) (h : headNotWs l) :
    headNotWs (collapseAux false l) := by
  cases l with
  | nil => intro c hc; simp [collapseAux] at hc
  | cons a l =>
    have ha : isWs a = false := h a (by simp)
    intro c hc
    rw [collapseAux_not_ws a l ha false] at hc
    simp only [List.head?_cons, Option.some.injEq] at hc
    subst hc
    exact ha

lemma lastNotWs_collapseAux : ∀ (l : List Char) (b : Bool), lastNotWs l →
    lastNotWs (collapseAux b l) := by
  intro l
  induction l with
  | nil => intro b _ c hc; simp [collapseAux] at hc
  | cons a l ih =>
    intro b h
    cases l with
    | nil =>
      have ha : isWs a = false := h a (by simp)
      rw [collapseAux_not_ws a [] ha b]
      intro c hc
      simp only [collapseAux, List.getLast?_singleton, Option.some.injEq] at hc
      subst hc
      exact ha
    | cons a2 l2 =>
      have htail : lastNotWs (a2 :: l2) := by
        intro c hc
        exact h c (by rwa [List.getLast?_cons_cons])
      have hne2 : (a2 :: l2) ≠ [] := by simp
      have hxl : (a2 :: l2).getLast? = some ((a2 :: l2).getLast hne2) :=
        List.getLast?_eq_getLast_of_ne_nil hne2
      have hxw : isWs ((a2 :: l2).getLast hne2) = false := htail _ hxl
      have hxmem : (a2 :: l2).getLast hne2 ∈ a2 :: l2 := List.getLast_mem hne2
      by_cases ha : isWs a = true
      · cases b with
        | true =>
          rw [collapseAux_ws_inRun a _ ha]
          exact ih true htail
        | false =>
          rw [collapseAux_ws_start a _ ha]
          intro c hc
          have hne : collapseAux true (a2 :: l2) ≠ [] :=
            collapseAux_ne_nil (a2 :: l2) true _ hxw hxmem
          rw [getLast?_cons_ne_nil _ _ hne] at hc
          exact ih true htail c hc
      · have ha' : isWs a = false := by simpa using ha
        rw [collapseAux_not_ws a _ ha' b]
        intro c hc
        have hne : collapseAux false (a2 :: l2) ≠ [] :=
          collapseAux_ne_nil (a2 :: l2) false _ hxw hxmem
        rw [getLast?_cons_ne_nil _ _ hne] at hc
        exact ih false htail c hc

lemma headNotWs_map_upper (l : List Char) (h : headNotWs l) :
    headNotWs (l.map upperChar) := by
  intro c hc
  rw [List.head?_map] at hc
  rcases hh : l.head? with - | x
  · rw [hh] at hc; simp at hc
  · rw [hh] at hc
    simp only [Option.map_some', Option.some.injEq] at hc
    subst hc
    rw [isWs_upperChar]
    exact h x hh

lemma lastNotWs_map_upper (l : List Char) (h : lastNotWs l) :
    lastNotWs (l.map upperChar) := by
  intro c hc
  rw [List.getLast?_map] at hc
  rcases hh : l.getLast? with - | x
  · rw [hh] at hc; simp at hc
  · rw [hh] at hc
    simp only [Option.map_some', Option.some.injEq] at hc
    subst hc
    rw [isWs_upperChar]
    exact h x hh

lemma dropWhile_eq_self_of_head (l : List Char) (h : headNotWs l) :
    l.dropWhile isWs = l := by
  cases l with
  | nil => rfl
  | cons a l => exact List.dropWhile_cons_of_neg (by simp [h a (by simp)])

lemma stripChars_eq_self (l : List Char) (h1 : headNotWs l) (h2 : lastNotWs l) :
    stripChars l = l := by
  unfold stripChars
  rw [dropWhile_eq_self_of_head l h1]
  have : l.reverse.dropWhile isWs = l.reverse := by
    apply dropWhile_eq_self_of_head
    intro c hc
    rw [List.head?_reverse] at hc
    exact h2 c hc
  rw [this, List.reverse_reverse]

/-- C9: the address key normalizer is idempotent — normalizing an
already-normalized string returns it unchanged, so
`normalize_address_key (normalize_address_key s) = normalize_address_key s`
for every input string `s`. -/
theorem normalize_address_key_idempotent (s : String) :
    normalize_address_key (normalize_address_key s) = normalize_address_key s := by
  unfold normalize_address_key
  set A := stripChars s.data with hA
  set B := collapseAux false A with hB
  have hdata : (⟨B.map upperChar⟩ : String).data = B.map upperChar := rfl
  rw [hdata]
  have hheadA : headNotWs A := headNotWs_stripChars s.data
  have hlastA : lastNotWs A := lastNotWs_stripChars s.data
  have hheadB : headNotWs B := headNotWs_collapseAux A hheadA
  have hlastB : lastNotWs B := by rw [hB]; exact lastNotWs_collapseAux A false hlastA
  have hcolB : collapsed false B := by rw [hB]; exact collapseAux_collapsed A false
  have hheadC : headNotWs (B.map upperChar) := headNotWs_map_upper B hheadB
  have hlastC : lastNotWs (B.map upperChar) := lastNotWs_map_upper B hlastB
  have hcolC : collapsed false (B.map upperChar) := collapsed_map_upper B false hcolB
  rw [stripChars_eq_self _ hheadC hlastC, collapsed_fixpoint _ false hcolC,
    List.map_map]
  congr 1
  apply List.map_congr_left
  intro c _
  exact upperChar_idem c

/-! ### Interactive geocoder, one address (`geocode_google_one`, lines 267-284)

The HTTP exchange is abstracted by a response schedule `responses : ℕ → GoogleResp`
giving the outcome of the `session.get` issued on each attempt:
`throttled` is an HTTP 429 status, `httpFail c` is any status that makes
`raise_for_status` raise (modeled as `Except.error c` propagating out),
and `body st results` is a 2xx JSON body with its `status` field and
`results` array (`GLoc` holds `geometry.location.{lat,lng}` as the strings
`str(...)` produces, plus `place_id`).  The returned `List ℚ` records the
durations passed to `time.sleep`, in seconds. -/

/-- One entry of the Google JSON `results` array (already stringified). -/
structure GLoc where
  lat : String
  lng : String
  place_id : String
  deriving DecidableEq, Repr

/-- Outcome of one HTTP attempt inside `geocode_google_one`. -/
inductive GoogleResp where
  | throttled
  | httpFail (code : ℕ)
  | body (status : String) (results : List GLoc)
  deriving DecidableEq, Repr

/-- The 6-tuple `(qkey, query, lat, lon, status, place_id)` returned by
`geocode_google_one`. -/
structure GeocodeTuple where
  qkey : String
  query : String
  lat : String
  lon : String
  status : String
  place_id : String
  deriving DecidableEq, Repr

/-- The `for _ in range(5)` retry loop of `geocode_google_one` (lines 271-284):
`attempt` counts the requests already issued, `fuel` the loop iterations left,
`backoff` the current sleep duration.  On 429 the loop sleeps `backoff`,
doubles it and continues; on any other HTTP error `raise_for_status` raises;
otherwise the JSON body is inspected once and the loop returns. -/
def googleAttempts (responses : ℕ → GoogleResp) (qkey addr_full : String) :
    ℕ → ℕ → ℚ → List ℚ × Except ℕ GeocodeTuple
  | _, 0, _ => ([], .ok ⟨qkey, addr_full, "", "", "OVER_QUERY_LIMIT", ""⟩)
  | attempt, fuel + 1, backoff =>
    match responses attempt with
    | .throttled =>
      let p := googleAttempts responses qkey addr_full (attempt + 1) fuel (2 * backoff)
      (backoff :: p.1, p.2)
    | .httpFail c => ([], .error c)
    | .body st results =>
      match results with
      | r :: _ =>
        if st = "OK" then ([], .ok ⟨qkey, addr_full, r.lat, r.lng, "OK", r.place_id⟩)
        else ([], .ok ⟨qkey, addr_full, "", "", st, ""⟩)
      | [] => ([], .ok ⟨qkey, addr_full, "", "", st, ""⟩)

/-- `geocode_google_one` (lines 267-284): five attempts, initial backoff 0.25 s. -/
def geocode_google_one (responses : ℕ → GoogleResp) (addr_full qkey : String) :
    List ℚ × Except ℕ GeocodeTuple :=
  googleAttempts responses qkey addr_full 0 5 (1/4)

/-- C4: an address lookup that is throttled (HTTP 429) on every attempt is
retried up to the fixed cap of five attempts with exponential backoff
0.25 s, 0.5 s, 1 s, 2 s, 4 s (starting at 250 ms and doubling), and then
returns the terminal tuple with status `OVER_QUERY_LIMIT` and empty
latitude/longitude instead of raising. -/
theorem geocode_google_one_throttled (responses : ℕ → GoogleResp) (addr qkey : String)
    (h : ∀ i, responses i = .throttled) :
    geocode_google_one responses addr qkey =
      ([1/4, 1/2, 1, 2, 4], .ok ⟨qkey, addr, "", "", "OVER_QUERY_LIMIT", ""⟩) := by
  unfold geocode_google_one
  rw [googleAttempts, h 0]
  rw [googleAttempts, h 1]
  rw [googleAttempts, h 2]
  rw [googleAttempts, h 3]
  rw [googleAttempts, h 4]
  rw [googleAttempts]
  norm_num

/-- Witness for C4 at the constant-throttle schedule. -/
theorem geocode_google_one_throttled_witness :
    geocode_google_one (fun _ => .throttled) "A" "K" =
      ([1/4, 1/2, 1, 2, 4], .ok ⟨"K", "A", "", "", "OVER_QUERY_LIMIT", ""⟩) :=
  geocode_google_one_throttled (fun _ => .throttled) "A" "K" (fun _ => rfl)

/-! ### Geocode cache rows and first-occurrence deduplication -/

/-- One value of the in-memory geocode cache dict: the row fields other than
the key `qkey` (`CACHE_FIELDS` minus the key, line 20).  After the
normalization loop of `geocode_file` (lines 427-436) every cache row has all
five fields present as strings, which is what this structure captures. -/
structure CacheRow where
  query : String
  lat : String
  lon : String
  status : String
  place_id : String
  deriving DecidableEq, Repr

/-- The in-memory cache dict `{(qkey,): row}`, in insertion order. -/
abbrev Cache := List (String × CacheRow)

/-- Helper for `dropDuplicatesBy`: `seen` is the set of keys already kept. -/
def dropDupAux (key : α → κ) [DecidableEq κ] : List κ → List α → List α
  | _, [] => []
  | seen, x :: xs =>
    if key x ∈ seen then dropDupAux key seen xs
    else x :: dropDupAux key (key x :: seen) xs

/-- pandas `drop_duplicates` (keep the first occurrence of each key). -/
def dropDuplicatesBy (key : α → κ) [DecidableEq κ] (l : List α) : List α :=
  dropDupAux key [] l

/-! ### Interactive geocoding run (`geocode_file_google`, lines 286-325)

A CSV row entering the geocode stage is a `ProvCsvRow` (address columns plus
the untouched remaining columns); `geocode_file` (lines 400-403) assembles
`address_full` and `addr_key`, giving a `GeoInRow`.  The HTTP layer is
abstracted by `lookup : qkey → query → CacheRow`, giving the cache row that
the worker task (rate-limited `geocode_google_one`) would produce for that
to-do entry; `requests` records the to-do list actually handed to workers
(one entry per uncached unique key — zero entries means zero API requests).
Workers merge results into the dict keyed by `addr_key`; since the to-do keys
are distinct and fresh, the resulting mapping is independent of completion
order, so the merge is modeled in to-do order.  Cache flushing
(`save_cache_safe` every `save_every` completions and once at the end) writes
a snapshot of the same dict and does not affect the run's outputs. -/

/-- A row of the filtered-provider CSV read by the geocode stage:
the five address columns plus the remaining columns, untouched. -/
structure ProvCsvRow where
  other : List String
  address : String
  address2 : String
  city : String
  state : String
  zip : String
  deriving DecidableEq, Repr

/-- A provider row with the derived `address_full` / `addr_key` columns. -/
structure GeoInRow where
  other : List String
  address : String
  address2 : String
  city : String
  state : String
  zip : String
  address_full : String
  addr_key : String
  deriving DecidableEq, Repr

/-- An enriched output row of the interactive geocoder (the `addr_key`
column is dropped at line 323; it is derived data, recomputable from
`address_full`). -/
structure GeoOutRow where
  other : List String
  address : String
  address2 : String
  city : String
  state : String
  zip : String
  address_full : String
  lat : String
  lon : String
  geocode_status : String
  place_id : String
  deriving DecidableEq, Repr

/-- Lines 400-403 of `geocode_file`: assemble `address_full`
(`address + (" " + address2 if address2 else "") + ", " + city + ", " +
state + " " + zip`, stripped) and `addr_key`. -/
def toGeoInRow (r : ProvCsvRow) : GeoInRow :=
  let full := stripS (r.address ++ (if r.address2 ≠ "" then " " ++ r.address2 else "") ++
    ", " ++ r.city ++ ", " ++ r.state ++ " " ++ r.zip)
  ⟨r.other, r.address, r.address2, r.city, r.state, r.zip, full, normalize_address_key full⟩

/-- `pick_row` (lines 317-319): rehydrate one row from the cache, with empty
strings when the key is absent. -/
def enrich (fc : Cache) (r : GeoInRow) : GeoOutRow :=
  let g := (List.lookup r.addr_key fc).getD ⟨"", "", "", "", ""⟩
  ⟨r.other, r.address, r.address2, r.city, r.state, r.zip, r.address_full,
    g.lat, g.lon, g.status, g.place_id⟩

/-- Result of one interactive-geocoder run: the to-do list handed to the
worker pool (the request schedule), the cache after all lookups merged, and
the enriched output rows. -/
structure GoogleRun where
  requests : List (String × String)
  finalCache : Cache
  rows : List GeoOutRow
  deriving DecidableEq, Repr

/-- `geocode_file_google` (lines 286-325): build `first_full`
(first `address_full` per `addr_key`), compute the to-do list of unique
uncached keys, run the lookups, merge into the cache, then rehydrate the
full record stream from the cache and keep only rows with non-empty
coordinates.  `save_every`, `qps` and `workers` tune flush cadence, the rate
limiter and the pool size and do not enter the data path. -/
def geocode_file_google (records : List GeoInRow) (cache : Cache)
    (save_every qps workers : ℕ) (lookup : String → String → CacheRow) : GoogleRun :=
  let firstFullOf := fun k =>
    ((records.find? (fun r => r.addr_key = k)).map (fun r => r.address_full)).getD ""
  let uniq := dropDuplicatesBy (fun k => k) (records.map (fun r => r.addr_key))
  let todo := (uniq.filter (fun k => (List.lookup k cache).isNone)).map
    (fun k => (k, firstFullOf k))
  let fc := todo.foldl (fun c kv => c ++ [(kv.1, lookup kv.1 kv.2)]) cache
  { requests := todo
    finalCache := fc
    rows := (records.map (enrich fc)).filter (fun o => o.lat ≠ "" && o.lon ≠ "") }

/-- A record's key resolved in the cache with non-empty coordinates. -/
def resolvedB (fc : Cache) (r : GeoInRow) : Bool :=
  match List.lookup r.addr_key fc with
  | some g => g.lat ≠ "" && g.lon ≠ ""
  | none => false

/-! ### Batch geocoding run (`census_batch_file` / `call_census_batch` /
`geocode_file_census_batch`, lines 328-389)

The bulk HTTP exchange (`call_census_batch` followed by
`parse_census_batch`) is abstracted by
`api : List SubmitRow → Except ℕ (List CensusRespRow)`: an `Except.error`
models `raise_for_status` (or a timeout) raising out of
`call_census_batch`, which the surrounding loop does not catch; an
`Except.ok` gives the parsed response rows.  `sub.join(res.set_index("id"))`
joins `res` on `sub`'s positional index after `reset_index(drop=True)`, so
position `i` is matched with response id `i` — not with the id `i + 1`
that position `i` was assigned in the submitted file. -/

/-- One line of the headerless batch file written by `census_batch_file`:
sequential 1-based id, street (`address + " " + address2`, stripped), city,
state, first five characters of zip. -/
structure SubmitRow where
  id : ℕ
  street : String
  city : String
  state : String
  zip : String
  deriving DecidableEq, Repr

/-- One parsed row of the bulk API's CSV response (`parse_census_batch`). -/
structure CensusRespRow where
  id : ℕ
  lat : String
  lon : String
  county_geoid : String
  tract_geoid : String
  deriving DecidableEq, Repr

/-- Python `s[:5]`. -/
def take5 (s : String) : String := ⟨s.data.take 5⟩

/-- `census_batch_file` (lines 328-339): serialize a batch, assigning ids
`1..len` by position. -/
def census_batch_file (recs : List GeoInRow) : List SubmitRow :=
  ((List.range recs.length).zip recs).map (fun p =>
    ⟨p.1 + 1, stripS (p.2.address ++ " " ++ p.2.address2), p.2.city, p.2.state,
      take5 p.2.zip⟩)

/-- `sub.join(res.set_index("id"))` at line 385: pandas joins on `sub`'s
index, which after `reset_index(drop=True)` is the 0-based position, against
`res`'s index (the response `id` column); unmatched positions get missing
values. -/
def joinByIndex (sub : List GeoInRow) (res : List CensusRespRow) :
    List (GeoInRow × Option CensusRespRow) :=
  ((List.range sub.length).zip sub).map (fun p =>
    (p.2, res.find? (fun row => row.id = p.1)))

/-- Fuel-driven chunking; `fuel` is initialized to the list length, which
suffices for any positive chunk size (`batch_size = 0` would make Python's
`range` raise before any work, so that case is never exercised). -/
def chunkAux (n : ℕ) : ℕ → List α → List (List α)
  | _, [] => []
  | 0, l => [l]
  | fuel + 1, l => l.take n :: chunkAux n fuel (l.drop n)

/-- `range(0, len(df), batch_size)` with `df.iloc[start:start+batch_size]`:
split a list into consecutive chunks of size `n`. -/
def chunkList (n : ℕ) (l : List α) : List (List α) := chunkAux n l.length l

/-- The batch loop of `geocode_file_census_batch` (lines 376-386): serialize
and submit each batch in order, parse, join by index, and accumulate; an
HTTP failure raises out of the loop, discarding everything accumulated so
far (`parts` is local and `out.to_csv` at line 388 is never reached). -/
def censusRun (api : List SubmitRow → Except ℕ (List CensusRespRow)) :
    List (List GeoInRow) → Except ℕ (List (GeoInRow × Option CensusRespRow))
  | [] => .ok []
  | b :: bs =>
    match api (census_batch_file b) with
    | .error e => .error e
    | .ok resp =>
      match censusRun api bs with
      | .error e => .error e
      | .ok rest => .ok (joinByIndex b resp ++ rest)

/-- `geocode_file_census_batch` (lines 371-389): recompute `addr_key`
(line 373), split into batches, run the batch loop. -/
def geocode_file_census_batch (records : List GeoInRow) (batch_size : ℕ)
    (api : List SubmitRow → Except ℕ (List CensusRespRow)) :
    Except ℕ (List (GeoInRow × Option CensusRespRow)) :=
  let rows := records.map (fun r =>
    { r with addr_key := normalize_address_key r.address_full })
  censusRun api (chunkList batch_size rows)

/-! ### The geocode stage entry point (`geocode_file`, lines 391-445) -/

/-- `--engine` choice. -/
inductive Engine where
  | google
  | census
  deriving DecidableEq, Repr

/-- Observable outcome of the geocode stage: the interactive run (request
schedule, final cache and output rows), the batch run's result, or the
`SystemExit` for a missing Google key. -/
inductive GeocodeOutcome where
  | googleOut (run : GoogleRun)
  | censusOut (result : Except ℕ (List (GeoInRow × Option CensusRespRow)))
  | missingKey
  deriving Repr

/-- `geocode_file` (lines 391-445): derive `address_full` / `addr_key`,
then dispatch on the engine.  The `cache` argument is the in-memory dict
after loading and per-row normalization (lines 405-436; with every field
present that loop is the identity, and the old-format branch concerns only
legacy files).  The `throttle` and `max_retries` parameters are accepted
(defaults 0.08 and 4, forwarded from the CLI flags at lines 561-567) and
appear nowhere in the body — exactly as in the source. -/
def geocode_file (records : List ProvCsvRow) (google_key : String) (cache : Cache)
    (throttle : ℚ) (max_retries : ℕ) (engine : Engine)
    (qps workers save_every batch_size : ℕ)
    (lookup : String → String → CacheRow)
    (api : List SubmitRow → Except ℕ (List CensusRespRow)) : GeocodeOutcome :=
  let rows := records.map toGeoInRow
  match engine with
  | .google =>
    if google_key = "" then .missingKey
    else .googleOut (geocode_file_google rows cache save_every qps workers lookup)
  | .census => .censusOut (geocode_file_census_batch rows batch_size api)

/-! ### Facts about first-occurrence deduplication -/

lemma dropDupAux_sublist (key : α → κ) [DecidableEq κ] :
    ∀ (l : List α) (seen : List κ), List.Sublist (dropDupAux key seen l) l := by
  intro l
  induction l with
  | nil => intro seen; simp [dropDupAux]
  | cons x xs ih =>
    intro seen
    by_cases hx : key x ∈ seen
    · simp only [dropDupAux, if_pos hx]
      exact (ih seen).trans (List.sublist_cons_self x xs)
    · simp only [dropDupAux, if_neg hx]
      exact (ih (key x :: seen)).cons₂ x

lemma dropDuplicatesBy_sublist (key : α → κ) [DecidableEq κ] (l : List α) :
    List.Sublist (dropDuplicatesBy key l) l :=
  dropDupAux_sublist key l []

/-! ### C2: resume correctness of the interactive geocoder -/

/-- C2: when every `addr_key` of the input is already present in the persisted
cache — in particular on a re-run after a completed, flushed run — the
interactive geocoder's to-do list is empty, so zero API requests are issued,
the cache is unchanged, and the output is rehydrated entirely from the
pre-existing cache entries. -/
theorem geocode_google_resume_zero_requests (records : List GeoInRow) (cache : Cache)
    (save_every qps workers : ℕ) (lookup : String → String → CacheRow)
    (h : ∀ r ∈ records, (List.lookup r.addr_key cache).isSome = true) :
    (geocode_file_google records cache save_every qps workers lookup).requests = [] ∧
    (geocode_file_google records cache save_every qps workers lookup).finalCache = cache ∧
    (geocode_file_google records cache save_every qps workers lookup).rows =
      (records.map (enrich cache)).filter (fun o => o.lat ≠ "" && o.lon ≠ "") := by
  have htodo : (dropDuplicatesBy (fun k => k) (records.map (fun r => r.addr_key))).filter
      (fun k => (List.lookup k cache).isNone) = [] := by
    rw [List.filter_eq_nil_iff]
    intro k hk
    have hk2 : k ∈ records.map (fun r => r.addr_key) :=
      (dropDuplicatesBy_sublist _ _).subset hk
    obtain ⟨r, hr, rfl⟩ := List.mem_map.1 hk2
    obtain ⟨v, hv⟩ := Option.isSome_iff_exists.1 (h r hr)
    simp [hv]
  simp only [geocode_file_google, htodo, List.map_nil, List.foldl_nil]
  refine ⟨?_, ?_, ?_⟩ <;> trivial

/-- Witness for C2: one record whose key is cached. -/
theorem geocode_google_resume_zero_requests_witness :
    (geocode_file_google
        [⟨["9999"], "1 A St", "", "X", "IL", "60000", "1 A St, X, IL 60000", "1 A ST, X, IL 60000"⟩]
        [("1 A ST, X, IL 60000", ⟨"1 A St, X, IL 60000", "41.0", "-87.0", "OK", "p1"⟩)]
        2000 10 10 (fun _ _ => ⟨"", "", "", "", ""⟩)).requests = [] ∧
    (geocode_file_google
        [⟨["9999"], "1 A St", "", "X", "IL", "60000", "1 A St, X, IL 60000", "1 A ST, X, IL 60000"⟩]
        [("1 A ST, X, IL 60000", ⟨"1 A St, X, IL 60000", "41.0", "-87.0", "OK", "p1"⟩)]
        2000 10 10 (fun _ _ => ⟨"", "", "", "", ""⟩)).finalCache =
      [("1 A ST, X, IL 60000", ⟨"1 A St, X, IL 60000", "41.0", "-87.0", "OK", "p1"⟩)] ∧
    (geocode_file_google
        [⟨["9999"], "1 A St", "", "X", "IL", "60000", "1 A St, X, IL 60000", "1 A ST, X, IL 60000"⟩]
        [("1 A ST, X, IL 60000", ⟨"1 A St, X, IL 60000", "41.0", "-87.0", "OK", "p1"⟩)]
        2000 10 10 (fun _ _ => ⟨"", "", "", "", ""⟩)).rows =
      ([⟨["9999"], "1 A St", "", "X", "IL", "60000", "1 A St, X, IL 60000", "1 A ST, X, IL 60000"⟩].map
        (enrich [("1 A ST, X, IL 60000", ⟨"1 A St, X, IL 60000", "41.0", "-87.0", "OK", "p1"⟩)])).filter
        (fun o => o.lat ≠ "" && o.lon ≠ "") :=
  geocode_google_resume_zero_requests _ _ 2000 10 10 _ (by decide)

/-! ### C5: the enriched output keeps exactly the resolved records -/

lemma filter_map_comm (f : α → β) (p : β → Bool) :
    ∀ l : List α, (l.map f).filter p = (l.filter (fun x => p (f x))).map f := by
  intro l
  induction l with
  | nil => rfl
  | cons a l ih =>
    by_cases hp : p (f a) = true
    · simp [List.filter_cons, hp, ih]
    · simp [List.filter_cons, hp, ih]

lemma resolvedB_eq_pred (fc : Cache) (r : GeoInRow) :
    ((enrich fc r).lat ≠ "" && (enrich fc r).lon ≠ "") = resolvedB fc r := by
  unfold enrich resolvedB
  rcases hl : List.lookup r.addr_key fc with - | g <;> simp [hl]

/-- C5: the interactive geocoder's output is exactly the input records whose
`addr_key` maps in the (post-lookup) cache to a result with non-empty
latitude and longitude, each enriched from that cache entry; unresolved
records are dropped, so the output has at most as many rows as the input. -/
theorem geocode_google_output_exactly_resolved (records : List GeoInRow) (cache : Cache)
    (save_every qps workers : ℕ) (lookup : String → String → CacheRow) :
    (geocode_file_google records cache save_every qps workers lookup).rows =
      (records.filter
          (resolvedB (geocode_file_google records cache save_every qps workers lookup).finalCache)).map
        (enrich (geocode_file_google records cache save_every qps workers lookup).finalCache) ∧
    (geocode_file_google records cache save_every qps workers lookup).rows.length ≤
      records.length := by
  have hrows : (geocode_file_google records cache save_every qps workers lookup).rows =
      (records.map
          (enrich (geocode_file_google records cache save_every qps workers lookup).finalCache)).filter
        (fun o => o.lat ≠ "" && o.lon ≠ "") := rfl
  constructor
  · rw [hrows, filter_map_comm]
    congr 1
    apply List.filter_congr
    intro r _
    exact resolvedB_eq_pred _ r
  · rw [hrows]
    calc ((records.map
          (enrich (geocode_file_google records cache save_every qps workers lookup).finalCache)).filter
        (fun o => o.lat ≠ "" && o.lon ≠ "")).length
        ≤ (records.map
          (enrich (geocode_file_google records cache save_every qps workers lookup).finalCache)).length :=
          List.length_filter_le _ _
      _ = records.length := List.length_map _ _

/-! ### C10: `throttle` and `max_retries` are dead parameters -/

/-- C10: the `--throttle` and `--retries` CLI flags are forwarded into
`geocode_file` as `throttle` and `max_retries` and never read: two geocode
runs agreeing on every other input (records, key, cache, engine, tuning
parameters, and the API responses) produce identical outcomes — the same
request schedule, the same final cache and the same output — whatever the
two flags are set to.  The retry cap (5) and initial backoff (0.25 s) are
hard-coded inside `geocode_google_one`. -/
theorem geocode_file_throttle_retries_unused (records : List ProvCsvRow)
    (google_key : String) (cache : Cache) (t1 t2 : ℚ) (m1 m2 : ℕ) (engine : Engine)
    (qps workers save_every batch_size : ℕ) (lookup : String → String → CacheRow)
    (api : List SubmitRow → Except ℕ (List CensusRespRow)) :
    geocode_file records google_key cache t1 m1 engine qps workers save_every batch_size
        lookup api =
      geocode_file records google_key cache t2 m2 engine qps workers save_every batch_size
        lookup api := rfl

/-! ### C7: a failed batch submission aborts the whole batch stage -/

/-- The example rows used for the census-engine counterexamples. -/
def cRowA : GeoInRow :=
  ⟨["1"], "1 A St", "", "X", "IL", "60000", "1 A St, X, IL 60000", ""⟩

/-- Second example row (different street, so the fake API can tell the
batches apart). -/
def cRowB : GeoInRow :=
  ⟨["2"], "2 B St", "", "X", "IL", "60000", "2 B St, X, IL 60000", ""⟩

/-- A fake bulk API that fails (HTTP 500) on any batch containing `cRowB`'s
street and succeeds with an empty response otherwise. -/
def apiFailB : List SubmitRow → Except ℕ (List CensusRespRow) := fun sub =>
  if sub.any (fun s => s.street = "2 B St") then .error 500 else .ok []

/-- C7, counterexample: with batch size 1, records `[cRowA, cRowB]` and an
API that succeeds on the first batch and fails on the second, the whole
stage evaluates to `Except.error 500` — the first batch's already-processed
results are *not* retained in any accumulated output (nothing is written),
contrary to the claim. -/
theorem census_batch_failure_loses_all :
    geocode_file_census_batch [cRowA, cRowB] 1 apiFailB = .error 500 := by rfl

/-- C7 as amended: when the bulk HTTP submission of one batch fails, the
exception propagates out of the batch loop: the entire stage fails with that
error, the results of batches already processed before the failure are
discarded, and subsequent batches are not processed. -/
theorem census_batch_failure_aborts_stage (bs1 : List (List GeoInRow))
    (b : List GeoInRow) (bs2 : List (List GeoInRow))
    (api : List SubmitRow → Except ℕ (List CensusRespRow)) (e : ℕ)
    (hok : ∀ c ∈ bs1, ∃ r, api (census_batch_file c) = .ok r)
    (hfail : api (census_batch_file b) = .error e) :
    censusRun api (bs1 ++ b :: bs2) = .error e := by
  induction bs1 with
  | nil => simp [censusRun, hfail]
  | cons c cs ih =>
    obtain ⟨r, hr⟩ := hok c (List.mem_cons_self c cs)
    have ihr := ih (fun d hd => hok d (List.mem_cons_of_mem c hd))
    simp [censusRun, hr, ihr]

/-- Witness for the amended C7 at a concrete two-batch run. -/
theorem census_batch_failure_aborts_stage_witness :
    censusRun apiFailB ([[cRowA]] ++ [cRowB] :: []) = .error 500 :=
  census_batch_failure_aborts_stage [[cRowA]] [cRowB] [] apiFailB 500
    (by
      intro c hc
      simp only [List.mem_singleton] at hc
      subst hc
      exact ⟨[], rfl⟩)
    rfl

/-! ### C6: the batch join is off by one -/

/-- A faithful bulk API for the C6 demonstration: it answers every submitted
row with a response row carrying the same id and, as its latitude field, the
street of that very submission — so response id `i` visibly belongs to the
record that was submitted with id `i`. -/
def apiEcho : List SubmitRow → Except ℕ (List CensusRespRow) := fun sub =>
  .ok (sub.map (fun s => ⟨s.id, s.street, "0", "C", "T"⟩))

/-- C6 fails on the code: submitting `[cRowA, cRowB]` as one batch assigns
ids 1 and 2, and the API answers id 1 with `cRowA`'s own data; but the join
matches response ids against the 0-based positional index, so `cRowA`
(position 0) receives no response row at all and `cRowB` (position 1)
receives the response for id 1 — `cRowA`'s data.  The code's own comment
(`# id matches order in file`, line 385) documents the intended alignment
that this evaluation refutes. -/
theorem census_join_misaligned :
    geocode_file_census_batch [cRowA, cRowB] 10000 apiEcho =
      .ok [({ cRowA with addr_key := "1 A ST, X, IL 60000" }, none),
           ({ cRowB with addr_key := "2 B ST, X, IL 60000" },
             some ⟨1, "1 A St", "0", "C", "T"⟩)] := by rfl

/-! ### NPPES filter stage (`filter_nppes`, lines 100-264)

The roster is read in chunks of `CHUNK = 100_000` rows (line 117); the model
takes the chunked stream `List (List NppesRow)` directly.  A raw row carries
the columns `filter_nppes` reads: the identifying/address/phone columns, the
taxonomy-code columns `Healthcare Provider Taxonomy Code_i` in order, and
the parallel primary-switch columns (`pick` finds these header names; the
model assumes the standard NPPES headers are present, the configuration the
spec calls fatal to miss).  Missing cells (`NaN`) enter the model as `""`,
matching the `fillna("")` / `str(... or "")` treatment in the source. -/

/-- Home-care / HCBS taxonomy codes (line 12). -/
def HCBS_TAX : List String := ["253Z00000X", "3747P1801X", "376J00000X", "251E00000X"]

/-- Assisted-living taxonomy codes (line 13). -/
def ALF_TAX : List String := ["310400000X", "3104A0625X", "3104A0630X"]

/-- One raw NPPES roster row (the columns `filter_nppes` reads). -/
structure NppesRow where
  npi : String
  entity_type : String
  org_name : String
  first_name : String
  last_name : String
  add1 : String
  add2 : String
  city : String
  state : String
  zip : String
  phone : String
  tax_codes : List String
  tax_switches : List String
  deriving DecidableEq, Repr

/-- A filtered provider record (the columns written at lines 228-242). -/
structure ProviderRecord where
  npi : String
  entity_type : String
  provider_type : String
  provider_tags : String
  org_or_person_name : String
  address : String
  address2 : String
  city : String
  state : String
  zip : String
  phone : String
  taxonomy_primary : String
  taxonomy_all : String
  deriving DecidableEq, Repr

/-- ASCII lowercasing of one character. -/
def lowerChar (c : Char) : Char :=
  if 65 ≤ c.toNat ∧ c.toNat ≤ 90 then Char.ofNat (c.toNat + 32) else c

/-- ASCII cased letter. -/
def isAsciiAlpha (c : Char) : Bool :=
  (65 ≤ c.toNat && c.toNat ≤ 90) || (97 ≤ c.toNat && c.toNat ≤ 122)

/-- Python `str.title()` (ASCII): uppercase a letter that follows a
non-letter, lowercase a letter that follows a letter. -/
def titleAux : Bool → List Char → List Char
  | _, [] => []
  | prevCased, c :: cs =>
    if isAsciiAlpha c then
      (if prevCased then lowerChar c else upperChar c) :: titleAux true cs
    else c :: titleAux false cs

/-- Python `str.title()`. -/
def pyTitle (s : String) : String := ⟨titleAux false s.data⟩

/-- Python `str.upper()` (ASCII). -/
def pyUpper (s : String) : String := ⟨s.data.map upperChar⟩

/-- ASCII digit. -/
def isDigitChar (c : Char) : Bool := 48 ≤ c.toNat && c.toNat ≤ 57

/-- `zip5` (lines 28-31): `re.match(r"(\d{5})", z)` — the first five
characters when they are all digits, otherwise the string unchanged. -/
def zip5 (z : String) : String :=
  if (z.data.take 5).length = 5 ∧ (z.data.take 5).all isDigitChar
  then ⟨z.data.take 5⟩ else z

/-- Python string comparison (lexicographic on code points). -/
def charListLe : List Char → List Char → Bool
  | [], _ => true
  | _ :: _, [] => false
  | a :: as, b :: bs =>
    if a.toNat < b.toNat then true
    else if b.toNat < a.toNat then false
    else charListLe as bs

/-- Insertion step of a stable insertion sort under `charListLe`. -/
def insertSorted (x : String) : List String → List String
  | [] => [x]
  | y :: ys => if charListLe x.data y.data then x :: y :: ys else y :: insertSorted x ys

/-- Python `sorted` on strings (insertion sort; stability is irrelevant here
because the input is deduplicated first). -/
def pySorted : List String → List String
  | [] => []
  | x :: xs => insertSorted x (pySorted xs)

/-- Row matches an HCBS code in any taxonomy slot (lines 175-181). -/
def hitHCBS (r : NppesRow) : Bool := r.tax_codes.any (fun c => c ∈ HCBS_TAX)

/-- Row matches an ALF code in any taxonomy slot (lines 175-181). -/
def hitALF (r : NppesRow) : Bool := r.tax_codes.any (fun c => c ∈ ALF_TAX)

/-- `choose_primary` (lines 191-199): scan matched slots in order, return the
first whose switch is `"Y"`, else the first match; switches beyond the list
default to `""`. -/
def choosePrimaryAux : List String → List String → Option String → Option String
  | [], _, best => best
  | c :: cs, sws, best =>
    if c ∈ HCBS_TAX ∨ c ∈ ALF_TAX then
      if sws.headD "" = "Y" then some c
      else choosePrimaryAux cs sws.tail (if best.isSome then best else some c)
    else choosePrimaryAux cs sws.tail best

/-- `choose_primary` applied to a row. -/
def choose_primary (r : NppesRow) : Option String :=
  choosePrimaryAux r.tax_codes r.tax_switches none

/-- `provider_type` (lines 201-204). -/
def provider_type (code : String) : String := if code ∈ ALF_TAX then "ALF" else "HCBS"

/-- `provider_tags` (lines 210-213). -/
def providerTags (r : NppesRow) : String :=
  String.intercalate ";" ((if hitHCBS r then ["HCBS"] else []) ++
    (if hitALF r then ["ALF"] else []))

/-- `taxonomy_all` (lines 217-219): the distinct non-blank codes, sorted,
joined with `";"`. -/
def taxonomyAll (r : NppesRow) : String :=
  String.intercalate ";"
    (pySorted (dropDuplicatesBy (fun s => s) (r.tax_codes.filter (fun c => stripS c ≠ ""))))

/-- `name_of` (lines 221-226): organizations (entity type `"2"`) use the
legal business name, individuals `first + " " + last`, both stripped. -/
def name_of (r : NppesRow) : String :=
  if r.entity_type = "2" then stripS r.org_name
  else stripS (r.first_name ++ " " ++ r.last_name)

/-- Build the output record of one kept row (lines 228-242). -/
def toRecord (r : NppesRow) : ProviderRecord :=
  { npi := r.npi
    entity_type := r.entity_type
    provider_type := provider_type ((choose_primary r).getD "")
    provider_tags := providerTags r
    org_or_person_name := name_of r
    address := stripS r.add1
    address2 := stripS r.add2
    city := stripS (pyTitle r.city)
    state := r.state
    zip := zip5 r.zip
    phone := r.phone
    taxonomy_primary := (choose_primary r).getD ""
    taxonomy_all := taxonomyAll r }

/-- The assembled address used as half of the dedup key (lines 245-247):
`address + (" " + address2 if address2 else "") + f", {city}, {state} {zip}"`,
stripped. -/
def record_address_full (rec : ProviderRecord) : String :=
  stripS (rec.address ++ (if rec.address2 ≠ "" then " " ++ rec.address2 else "") ++
    ", " ++ rec.city ++ ", " ++ rec.state ++ " " ++ rec.zip)

/-- The dedup key of line 248: `(npi, address_full)`. -/
def dedupKey (rec : ProviderRecord) : String × String := (rec.npi, record_address_full rec)

/-- One chunk of the filter stage before its dedup (lines 163-242): optional
state filter (which normalizes the state column in place, line 165),
taxonomy filter, the always-true `taxonomy_primary` notna filter, and the
output-record construction. -/
def processChunkRecords (states : Option (List String)) (rows : List NppesRow) :
    List ProviderRecord :=
  let rows1 : List NppesRow := match states with
    | none => rows
    | some ss =>
      (rows.map (fun r => ({ r with state := stripS (pyUpper r.state) } : NppesRow))).filter
        (fun r => r.state ∈ ss)
  let rows2 := rows1.filter (fun r => hitHCBS r || hitALF r)
  let rows3 := rows2.filter (fun r => (choose_primary r).isSome)
  rows3.map toRecord

/-- One chunk of the filter stage including its per-chunk
`drop_duplicates(subset=["npi","address_full"])` (line 248). -/
def processChunk (states : Option (List String)) (rows : List NppesRow) :
    List ProviderRecord :=
  dropDuplicatesBy dedupKey (processChunkRecords states rows)

/-- `filter_nppes` (lines 100-256): process each chunk independently and
concatenate the kept records (`kept.append` + `pd.concat`). -/
def filter_nppes (states : Option (List String)) (chunks : List (List NppesRow)) :
    List ProviderRecord :=
  (chunks.map (processChunk states)).flatten

/-! ### C1: deduplication is per chunk, not global -/

/-- The roster row used in the C1 counterexample: an HCBS provider. -/
def exRow : NppesRow :=
  ⟨"1003000001", "2", "Acme Home Care", "", "", "1 Main St", "", "Springfield",
    "IL", "62701", "5551234567", ["253Z00000X"], ["Y"]⟩

/-- C1 fails on the code as stated over the whole roster: `drop_duplicates`
runs inside the chunk loop, so two identical rows falling into different
chunks (rows more than `CHUNK = 100_000` apart) both survive.  With the same
row once in each of two chunks, the output contains two records with the
identical `(npi, address_full)` key — not exactly one. -/
theorem filter_dedup_not_global :
    ((filter_nppes none [[exRow], [exRow]]).filter
      (fun r => dedupKey r = ("1003000001", "1 Main St, Springfield, IL 62701"))).length
      = 2 := by rfl

lemma dropDupAux_filter_key (key : α → κ) [DecidableEq κ] :
    ∀ (l : List α) (seen : List κ) (k : κ),
      (dropDupAux key seen l).filter (fun x => key x = k) =
        if k ∈ seen then [] else (l.filter (fun x => key x = k)).take 1 := by
  intro l
  induction l with
  | nil => intro seen k; by_cases hk : k ∈ seen <;> simp [dropDupAux, hk]
  | cons x xs ih =>
    intro seen k
    by_cases hx : key x ∈ seen
    · rw [dropDupAux, if_pos hx, ih seen k]
      by_cases hk : k ∈ seen
      · rw [if_pos hk, if_pos hk]
      · rw [if_neg hk, if_neg hk,
          List.filter_cons_of_neg (by simp only [decide_eq_true_eq]; intro he; exact hk (he ▸ hx))]
    · rw [dropDupAux, if_neg hx]
      by_cases hxk : key x = k
      · have hk : k ∉ seen := fun hk => hx (hxk ▸ hk)
        have hz : (dropDupAux key (key x :: seen) xs).filter (fun y => decide (key y = k)) = [] := by
          rw [ih (key x :: seen) k, if_pos (by simp [hxk])]
        rw [List.filter_cons_of_pos (by simp [hxk]), hz, if_neg hk,
          List.filter_cons_of_pos (by simp [hxk])]
        simp
      · rw [List.filter_cons_of_neg (by simp [hxk]), ih (key x :: seen) k]
        by_cases hk : k ∈ seen
        · rw [if_pos (by simp [hk]), if_pos hk]
        · rw [if_neg (by
              simp only [List.mem_cons]
              rintro (rfl | h)
              · exact hxk rfl
              · exact hk h),
            if_neg hk, List.filter_cons_of_neg (by simp [hxk])]

/-- C1 as amended: within a single chunk the claim holds — for every key
`k`, the records surviving the chunk's deduplication with key `k` are
exactly the first occurrence of `k` among the chunk's pre-dedup records
(`take 1` of the occurrences in order): one survivor when the key occurs,
none otherwise.  Across chunks no deduplication happens (see the
counterexample). -/
theorem filter_dedup_first_within_chunk (states : Option (List String))
    (rows : List NppesRow) (k : String × String) :
    (filter_nppes states [rows]).filter (fun r => dedupKey r = k) =
      ((processChunkRecords states rows).filter (fun r => dedupKey r = k)).take 1 := by
  have h1 : filter_nppes states [rows] = processChunk states rows := by
    simp [filter_nppes]
  rw [h1, processChunk, dropDuplicatesBy, dropDupAux_filter_key]
  simp

/-! ### Cache store (`save_cache_safe`, lines 74-88 / `load_cache`, lines 65-72)

The on-disk cache is a CSV file in Python's default csv dialect: delimiter
`,`, quote character `"`, `QUOTE_MINIMAL` (a field is quoted iff it contains
the delimiter, the quote character, or a line-terminator character `\r` /
`\n`; quotes are escaped by doubling), row terminator `\r\n`; the files are
opened with `newline=""` so no translation interferes.  `save_cache_safe`
writes the header `CACHE_FIELDS` and one row per dict entry (the atomic
tmp-file/`os.replace` dance concerns crash safety of the file system, not
the bytes written, so the model is the produced content); `load_cache` reads
the file back through `csv.DictReader`, rebuilding `{(qkey,): row}`.  The
reader below implements the dialect as a character-level state machine;
on byte sequences that `csv.writer` itself can never produce (stray data
after a closing quote, blank lines) it is simplified, since the round-trip
theorem only ever runs it on writer output. -/

/-- The CSV quote character. -/
def dquote : Char := '\"'

/-- Carriage return. -/
def CRc : Char := '\r'

/-- Line feed. -/
def LFc : Char := '\n'

/-- Characters forcing `QUOTE_MINIMAL` to quote a field. -/
def isSpecialC (c : Char) : Bool := decide (c = ',' ∨ c = dquote ∨ c = CRc ∨ c = LFc)

/-- Field needs quoting. -/
def needsQuote (f : List Char) : Bool := f.any isSpecialC

/-- Double every quote character (csv `doublequote = True`). -/
def escapeQ : List Char → List Char
  | [] => []
  | c :: cs => if c = dquote then dquote :: dquote :: escapeQ cs else c :: escapeQ cs

/-- Encode one field under `QUOTE_MINIMAL`. -/
def encodeField (s : String) : List Char :=
  if needsQuote s.data then dquote :: (escapeQ s.data ++ [dquote]) else s.data

/-- Encode one record: fields joined by `,`, terminated by `\r\n`. -/
def encodeRecord : List String → List Char
  | [] => [CRc, LFc]
  | [f] => encodeField f ++ [CRc, LFc]
  | f :: fs => encodeField f ++ ',' :: encodeRecord fs

/-- Encode a full CSV file. -/
def encodeCsv (rows : List (List String)) : List Char := (rows.map encodeRecord).flatten

mutual

/-- CSV reader state machine, base state: scanning an (as yet) unquoted
field `fld` of the partial record `rec`.  A quote opens quoted mode only at
field start; `,` ends the field; `\r\n` (or a bare terminator) ends the
record. -/
def csvNorm : List Char → List Char → List String → List (List String)
  | [], fld, rec => if fld = [] ∧ rec = [] then [] else [rec ++ [⟨fld⟩]]
  | c :: rest, fld, rec =>
    if c = dquote ∧ fld = [] then csvQuoted rest [] rec
    else if c = ',' then csvNorm rest [] (rec ++ [⟨fld⟩])
    else if c = CRc then
      match rest with
      | c2 :: rest2 =>
        if c2 = LFc then (rec ++ [⟨fld⟩]) :: csvNorm rest2 [] []
        else (rec ++ [⟨fld⟩]) :: csvNorm (c2 :: rest2) [] []
      | [] => [rec ++ [⟨fld⟩]]
    else if c = LFc then (rec ++ [⟨fld⟩]) :: csvNorm rest [] []
    else csvNorm rest (fld ++ [c]) rec
termination_by cs fld rec => cs.length

/-- CSV reader state machine, inside a quoted field: everything except the
quote character (including separators and newlines) is field content. -/
def csvQuoted : List Char → List Char → List String → List (List String)
  | [], fld, rec => [rec ++ [⟨fld⟩]]
  | c :: rest, fld, rec =>
    if c = dquote then csvAfterQ rest fld rec
    else csvQuoted rest (fld ++ [c]) rec
termination_by cs fld rec => cs.length

/-- CSV reader state machine, just after a quote inside a quoted field:
a second quote is an escaped literal quote, anything else ends the field. -/
def csvAfterQ : List Char → List Char → List String → List (List String)
  | [], fld, rec => [rec ++ [⟨fld⟩]]
  | c :: rest, fld, rec =>
    if c = dquote then csvQuoted rest (fld ++ [dquote]) rec
    else if c = ',' then csvNorm rest [] (rec ++ [⟨fld⟩])
    else if c = CRc then
      match rest with
      | c2 :: rest2 =>
        if c2 = LFc then (rec ++ [⟨fld⟩]) :: csvNorm rest2 [] []
        else (rec ++ [⟨fld⟩]) :: csvNorm (c2 :: rest2) [] []
      | [] => [rec ++ [⟨fld⟩]]
    else if c = LFc then (rec ++ [⟨fld⟩]) :: csvNorm rest [] []
    else csvNorm rest (fld ++ [c]) rec
termination_by cs fld rec => cs.length

end

/-- `csv.reader`: parse a whole file into records of fields. -/
def parseCsv (content : List Char) : List (List String) := csvNorm content [] []

/-- `CACHE_FIELDS` (line 20). -/
def cacheHeader : List String := ["qkey", "query", "lat", "lon", "status", "place_id"]

/-- The row `save_cache_safe` writes for one dict entry (lines 79-87). -/
def entryToRow (kv : String × CacheRow) : List String :=
  [kv.1, kv.2.query, kv.2.lat, kv.2.lon, kv.2.status, kv.2.place_id]

/-- `save_cache_safe` (lines 74-88): the bytes written — header plus one row
per entry, in dict (insertion) order. -/
def save_cache_safe (dct : List (String × CacheRow)) : List Char :=
  encodeCsv (cacheHeader :: dct.map entryToRow)

/-- `csv.DictReader` field access `row[name]` for one parsed record. -/
def lookupField (hdr row : List String) (name : String) : String :=
  (List.lookup name (hdr.zip row)).getD ""

/-- Rebuild one cache entry from a parsed record (line 71:
`out[tuple(row[k] for k in keys)] = row` with `keys = ["qkey"]`). -/
def rowToEntry (hdr row : List String) : String × CacheRow :=
  (lookupField hdr row "qkey",
    ⟨lookupField hdr row "query", lookupField hdr row "lat", lookupField hdr row "lon",
      lookupField hdr row "status", lookupField hdr row "place_id"⟩)

/-- `load_cache` (lines 65-72) on the file content: first record is the
header, the rest become dict entries keyed by their `qkey` field. -/
def load_cache (content : List Char) : List (String × CacheRow) :=
  match parseCsv content with
  | [] => []
  | hdr :: data => data.map (rowToEntry hdr)

/-! #### Round-trip lemmas for the CSV reader on writer output -/

lemma mk_data (s : String) : (⟨s.data⟩ : String) = s := rfl

lemma csvNorm_quote_start (rest : List Char) (rec : List String) :
    csvNorm (dquote :: rest) [] rec = csvQuoted rest [] rec := by
  rw [csvNorm.eq_def]
  simp

lemma csvNorm_comma (rest fld : List Char) (rec : List String) :
    csvNorm (',' :: rest) fld rec = csvNorm rest [] (rec ++ [(⟨fld⟩ : String)]) := by
  rw [csvNorm.eq_def]
  simp [dquote]

lemma csvNorm_crlf (rest fld : List Char) (rec : List String) :
    csvNorm (CRc :: LFc :: rest) fld rec = (rec ++ [(⟨fld⟩ : String)]) :: csvNorm rest [] [] := by
  rw [csvNorm.eq_def]
  simp [dquote, CRc, LFc]

lemma csvNorm_other (c : Char) (rest fld : List Char) (rec : List String)
    (h1 : c ≠ dquote) (h2 : c ≠ ',') (h3 : c ≠ CRc) (h4 : c ≠ LFc) :
    csvNorm (c :: rest) fld rec = csvNorm rest (fld ++ [c]) rec := by
  rw [csvNorm.eq_def]
  simp [h1, h2, h3, h4]

lemma csvQuoted_dq (rest fld : List Char) (rec : List String) :
    csvQuoted (dquote :: rest) fld rec = csvAfterQ rest fld rec := by
  rw [csvQuoted.eq_def]
  simp

lemma csvQuoted_other (c : Char) (rest fld : List Char) (rec : List String) (h : c ≠ dquote) :
    csvQuoted (c :: rest) fld rec = csvQuoted rest (fld ++ [c]) rec := by
  rw [csvQuoted.eq_def]
  simp [h]

lemma csvAfterQ_dq (rest fld : List Char) (rec : List String) :
    csvAfterQ (dquote :: rest) fld rec = csvQuoted rest (fld ++ [dquote]) rec := by
  rw [csvAfterQ.eq_def]
  simp

lemma csvAfterQ_comma (rest fld : List Char) (rec : List String) :
    csvAfterQ (',' :: rest) fld rec = csvNorm rest [] (rec ++ [(⟨fld⟩ : String)]) := by
  rw [csvAfterQ.eq_def]
  simp [dquote]

lemma csvAfterQ_crlf (rest fld : List Char) (rec : List String) :
    csvAfterQ (CRc :: LFc :: rest) fld rec = (rec ++ [(⟨fld⟩ : String)]) :: csvNorm rest [] [] := by
  rw [csvAfterQ.eq_def]
  simp [dquote, CRc, LFc]

lemma csvNorm_push (f : List Char) : ∀ (rest fld : List Char) (rec : List String),
    (∀ c ∈ f, isSpecialC c = false) →
    csvNorm (f ++ rest) fld rec = csvNorm rest (fld ++ f) rec := by
  induction f with
  | nil => intro rest fld rec _; simp
  | cons c cs ih =>
    intro rest fld rec h
    have hc := h c (List.mem_cons_self c cs)
    have hcs : ∀ x ∈ cs, isSpecialC x = false := fun x hx => h x (List.mem_cons_of_mem c hx)
    simp only [isSpecialC, decide_eq_false_iff_not] at hc
    push_neg at hc
    obtain ⟨h2, h1, h3, h4⟩ := hc
    rw [List.cons_append, csvNorm_other c (cs ++ rest) fld rec h1 h2 h3 h4,
      ih rest (fld ++ [c]) rec hcs, List.append_assoc, List.singleton_append]

lemma csvQuoted_escape (f : List Char) : ∀ (rest fld : List Char) (rec : List String),
    csvQuoted (escapeQ f ++ (dquote :: rest)) fld rec = csvAfterQ rest (fld ++ f) rec := by
  induction f with
  | nil =>
    intro rest fld rec
    rw [show escapeQ [] = [] from rfl, List.nil_append, csvQuoted_dq, List.append_nil]
  | cons c cs ih =>
    intro rest fld rec
    by_cases hc : c = dquote
    · subst hc
      rw [show escapeQ (dquote :: cs) = dquote :: dquote :: escapeQ cs from by
          simp [escapeQ]]
      rw [List.cons_append, List.cons_append, csvQuoted_dq, csvAfterQ_dq, ih,
        List.append_assoc, List.singleton_append]
    · rw [show escapeQ (c :: cs) = c :: escapeQ cs from by simp [escapeQ, hc]]
      rw [List.cons_append, csvQuoted_other c _ _ _ hc, ih,
        List.append_assoc, List.singleton_append]

lemma not_needsQuote_all (f : List Char) (hq : needsQuote f = false) :
    ∀ c ∈ f, isSpecialC c = false := by
  unfold needsQuote at hq
  rw [List.any_eq_false] at hq
  intro c hcmem
  simpa using hq c hcmem

lemma csvNorm_encodeRecord : ∀ (fs : List String), fs ≠ [] →
    ∀ (rest : List Char) (rec : List String),
    csvNorm (encodeRecord fs ++ rest) [] rec = (rec ++ fs) :: csvNorm rest [] [] := by
  intro fs
  induction fs with
  | nil => intro h; exact absurd rfl h
  | cons f fs ih =>
    intro _ rest rec
    cases fs with
    | nil =>
      rw [show encodeRecord [f] = encodeField f ++ [CRc, LFc] from rfl]
      by_cases hq : needsQuote f.data = true
      · rw [show encodeField f = dquote :: (escapeQ f.data ++ [dquote]) from by
            simp [encodeField, hq]]
        simp only [List.append_assoc, List.cons_append, List.singleton_append,
          List.nil_append]
        rw [csvNorm_quote_start, csvQuoted_escape, List.nil_append, csvAfterQ_crlf,
          mk_data]
      · have hall := not_needsQuote_all f.data (by simpa using hq)
        rw [show encodeField f = f.data from by simp [encodeField, hq], List.append_assoc,
          csvNorm_push f.data _ [] rec hall, List.nil_append,
          show ([CRc, LFc] : List Char) ++ rest = CRc :: LFc :: rest from rfl,
          csvNorm_crlf, mk_data]
    | cons g gs =>
      rw [show encodeRecord (f :: g :: gs) = encodeField f ++ ',' :: encodeRecord (g :: gs)
          from rfl]
      by_cases hq : needsQuote f.data = true
      · rw [show encodeField f = dquote :: (escapeQ f.data ++ [dquote]) from by
            simp [encodeField, hq]]
        simp only [List.append_assoc, List.cons_append, List.singleton_append,
          List.nil_append]
        rw [csvNorm_quote_start, csvQuoted_escape, List.nil_append, csvAfterQ_comma,
          mk_data, ih (by simp) rest (rec ++ [f]), List.append_assoc,
          List.singleton_append]
      · have hall := not_needsQuote_all f.data (by simpa using hq)
        rw [show encodeField f = f.data from by simp [encodeField, hq], List.append_assoc,
          csvNorm_push f.data _ [] rec hall, List.nil_append,
          show (',' :: encodeRecord (g :: gs)) ++ rest = ',' :: (encodeRecord (g :: gs) ++ rest)
            from rfl,
          csvNorm_comma, mk_data, ih (by simp) rest (rec ++ [f]),
          List.append_assoc, List.singleton_append]

lemma parseCsv_encodeCsv : ∀ (rows : List (List String)), (∀ r ∈ rows, r ≠ []) →
    parseCsv (encodeCsv rows) = rows := by
  intro rows
  induction rows with
  | nil =>
    intro _
    show csvNorm (encodeCsv []) [] [] = []
    rw [show encodeCsv [] = ([] : List Char) from rfl, csvNorm.eq_def]
    simp
  | cons r rs ih =>
    intro h
    show csvNorm (encodeCsv (r :: rs)) [] [] = r :: rs
    rw [show encodeCsv (r :: rs) = encodeRecord r ++ encodeCsv rs from by simp [encodeCsv]]
    rw [csvNorm_encodeRecord r (h r (List.mem_cons_self r rs)) (encodeCsv rs) [],
      List.nil_append]
    congr 1
    exact ih (fun x hx => h x (List.mem_cons_of_mem r hx))

/-- C8: writing any finite key→result mapping with `save_cache_safe` and
reading the produced file back with `load_cache` reproduces exactly the same
mapping — every entry comes back with its key and with `query`, `lat`,
`lon`, `status` and `place_id` bit-exact, whatever characters (separators,
quotes, newlines, …) the fields contain. -/
theorem cache_save_load_roundtrip (m : List (String × CacheRow)) :
    load_cache (save_cache_safe m) = m := by
  unfold load_cache save_cache_safe
  have hne : ∀ r ∈ cacheHeader :: m.map entryToRow, r ≠ [] := by
    intro r hr
    rcases List.mem_cons.1 hr with rfl | hr2
    · simp [cacheHeader]
    · obtain ⟨kv, -, rfl⟩ := List.mem_map.1 hr2
      simp [entryToRow]
  rw [parseCsv_encodeCsv _ hne]
  show (m.map entryToRow).map (rowToEntry cacheHeader) = m
  have hid : ∀ kv : String × CacheRow, rowToEntry cacheHeader (entryToRow kv) = kv :=
    fun kv => rfl
  rw [List.map_map]
  have hcomp : rowToEntry cacheHeader ∘ entryToRow = id := funext hid
  rw [hcomp, List.map_id]

/-! ### Rate limiter (`RateLimiter`, lines 39-57)

`acquire` runs entirely under `self.lock`, so concurrent calls are
serialized: a run is a sequence of acquire bodies, with arbitrary real time
passing between and inside them.  Time is modeled as a monotone rational
clock; each call carries three environment-chosen delays: `d1 ≥ 0`, the time
elapsed up to the `now = time.time()` at line 46; `eps > 0`, the extra time
the post-sleep reading at line 54 observes beyond the requested sleep
(`time.sleep` suspends for at least its argument, and the clock strictly
advances across the suspension and the following call — this is the one
physical assumption); `d2 ≥ 0`, the time elapsed up to the `time.time()`
appended at line 57.  The appended timestamp is the moment the acquisition
completes (is granted).  The claim is proved for closed windows
`[s, s + 1]`, which subsumes every sliding one-second interval. -/

/-- Environment delays of one `acquire` call (see section comment). -/
structure AcqEnv where
  d1 : ℚ
  eps : ℚ
  d2 : ℚ
  deriving DecidableEq, Repr

/-- Limiter state: the timestamp deque `self.buf` (oldest first) and the
last clock reading. -/
structure LimState where
  buf : List ℚ
  time : ℚ
  deriving DecidableEq, Repr

/-- The purge loop `while self.buf and now - self.buf[0] > 1.0: popleft()`
(lines 47-48 and 55-56). -/
def purge (now : ℚ) (buf : List ℚ) : List ℚ :=
  buf.dropWhile (fun ts => decide (1 < now - ts))

/-- One `acquire` body (lines 44-57): read the clock, purge, and if the
window already holds `qps` timestamps, sleep until the oldest exits, read
the clock, purge again; then append a fresh clock reading.  Returns the new
state and the granted (appended) timestamp. -/
def acquire (qps : ℕ) (st : LimState) (e : AcqEnv) : LimState × ℚ :=
  let now := st.time + e.d1
  let buf1 := purge now st.buf
  if qps ≤ buf1.length then
    let b0 := buf1.headD 0
    let sleepFor := 1 - (now - b0)
    let now2 := (if 0 < sleepFor then now + sleepFor else now) + e.eps
    let buf2 := purge now2 buf1
    let g := now2 + e.d2
    (⟨buf2 ++ [g], g⟩, g)
  else
    let g := now + e.d2
    (⟨buf1 ++ [g], g⟩, g)

/-- A sequence of serialized `acquire` calls; returns the granted
timestamps in order. -/
def runAux (qps : ℕ) (st : LimState) : List AcqEnv → List ℚ
  | [] => []
  | e :: es => (acquire qps st e).2 :: runAux qps (acquire qps st e).1 es

/-- A full run against one `RateLimiter(qps)` (note `self.qps = max(1, qps)`
at line 41), starting from the empty deque. -/
def RateLimiter_run (qps : ℕ) (es : List AcqEnv) : List ℚ :=
  runAux (max 1 qps) ⟨[], 0⟩ es

/-- Grants `N` apart are more than one second apart. -/
def SpreadOK (N : ℕ) (l : List ℚ) : Prop :=
  ∀ i x y, l[i]? = some x → l[i + N]? = some y → x + 1 < y

/-- Invariant tying the limiter state to the grant history `gs`: the deque
is a suffix of the grants, every purged grant is more than one second older
than the current clock, the deque never exceeds `qps` entries, the clock
bounds all grants, and the history is sorted with the spread property. -/
def LimInv (qps : ℕ) (gs : List ℚ) (st : LimState) : Prop :=
  ∃ m, m ≤ gs.length ∧ st.buf = gs.drop m ∧
    (∀ g ∈ gs.take m, g + 1 < st.time) ∧
    st.buf.length ≤ qps ∧
    (∀ g ∈ gs, g ≤ st.time) ∧
    List.Pairwise (· ≤ ·) gs ∧ SpreadOK qps gs

lemma purge_spec (now : ℚ) (buf : List ℚ) :
    ∃ k, k ≤ buf.length ∧ purge now buf = buf.drop k ∧ ∀ x ∈ buf.take k, 1 < now - x := by
  obtain ⟨k, hk, heq, hall⟩ := dropWhile_spec (fun ts => decide (1 < now - ts)) buf
  exact ⟨k, hk, heq, fun x hx => by simpa using hall x hx⟩

lemma acquire_cases (qps : ℕ) (st : LimState) (e : AcqEnv) (heps : 0 ≤ e.eps) :
    ∃ nowX bufX,
      acquire qps st e = (⟨bufX ++ [nowX + e.d2], nowX + e.d2⟩, nowX + e.d2) ∧
      st.time + e.d1 ≤ nowX ∧
      ((purge (st.time + e.d1) st.buf).length < qps ∧ nowX = st.time + e.d1 ∧
          bufX = purge (st.time + e.d1) st.buf ∨
        qps ≤ (purge (st.time + e.d1) st.buf).length ∧
          bufX = purge nowX (purge (st.time + e.d1) st.buf) ∧
          (purge (st.time + e.d1) st.buf).headD 0 + 1 + e.eps ≤ nowX) := by
  by_cases hbr : qps ≤ (purge (st.time + e.d1) st.buf).length
  · refine ⟨(if 0 < 1 - (st.time + e.d1 - (purge (st.time + e.d1) st.buf).headD 0)
        then st.time + e.d1 + (1 - (st.time + e.d1 - (purge (st.time + e.d1) st.buf).headD 0))
        else st.time + e.d1) + e.eps,
      purge ((if 0 < 1 - (st.time + e.d1 - (purge (st.time + e.d1) st.buf).headD 0)
        then st.time + e.d1 + (1 - (st.time + e.d1 - (purge (st.time + e.d1) st.buf).headD 0))
        else st.time + e.d1) + e.eps) (purge (st.time + e.d1) st.buf), ?_, ?_, ?_⟩
    · simp only [acquire]
      rw [if_pos hbr]
    · by_cases hsl : 0 < 1 - (st.time + e.d1 - (purge (st.time + e.d1) st.buf).headD 0)
      · rw [if_pos hsl]
        linarith
      · rw [if_neg hsl]
        linarith
    · refine Or.inr ⟨hbr, rfl, ?_⟩
      by_cases hsl : 0 < 1 - (st.time + e.d1 - (purge (st.time + e.d1) st.buf).headD 0)
      · rw [if_pos hsl]
        linarith
      · rw [if_neg hsl]
        push_neg at hsl
        linarith
  · push_neg at hbr
    refine ⟨st.time + e.d1, purge (st.time + e.d1) st.buf, ?_, le_refl _,
      Or.inl ⟨hbr, rfl, rfl⟩⟩
    simp only [acquire]
    rw [if_neg (by omega)]

lemma acquire_inv (qps : ℕ) (hq : 1 ≤ qps) (gs : List ℚ) (st : LimState) (e : AcqEnv)
    (hd1 : 0 ≤ e.d1) (heps : 0 < e.eps) (hd2 : 0 ≤ e.d2) (hinv : LimInv qps gs st) :
    LimInv qps (gs ++ [(acquire qps st e).2]) (acquire qps st e).1 := by
  obtain ⟨m, hm, hbuf, hpurged, hlen, hle, hsort, hspread⟩ := hinv
  obtain ⟨nowX, bufX, heq, hnowX, hcase⟩ := acquire_cases qps st e (le_of_lt heps)
  have hnow : st.time ≤ st.time + e.d1 := by linarith
  obtain ⟨k₁, hk₁, hpeq, hpdrop⟩ := purge_spec (st.time + e.d1) st.buf
  have hbl : st.buf.length = gs.length - m := by rw [hbuf, List.length_drop]
  have hm'le : m + k₁ ≤ gs.length := by omega
  have hbuf1 : purge (st.time + e.d1) st.buf = gs.drop (m + k₁) := by
    rw [hpeq, hbuf, List.drop_drop]
  have hB1len : (purge (st.time + e.d1) st.buf).length = gs.length - (m + k₁) := by
    rw [hbuf1, List.length_drop]
  have hgstake : ∀ x ∈ gs.take (m + k₁), x + 1 < st.time + e.d1 := by
    intro x hx
    rw [List.take_add] at hx
    rcases List.mem_append.1 hx with hx1 | hx2
    · exact lt_of_lt_of_le (hpurged x hx1) hnow
    · rw [← hbuf] at hx2
      have := hpdrop x hx2
      linarith
  -- the granted timestamp
  set g := nowX + e.d2 with hgdef
  have hng : nowX ≤ g := by rw [hgdef]; linarith
  have htg : st.time ≤ g := by linarith
  rw [heq]
  rcases hcase with ⟨hshort, hnweq, hbeq⟩ | ⟨hfull, hbeq, hb0⟩
  · -- no-sleep branch: buf1 appended directly
    refine ⟨m + k₁, by simpa using le_trans hm'le (by omega), ?_, ?_, ?_, ?_, ?_, ?_⟩
    · show bufX ++ [g] = (gs ++ [g]).drop (m + k₁)
      rw [List.drop_append_of_le_length hm'le, hbeq, hbuf1]
    · show ∀ x ∈ (gs ++ [g]).take (m + k₁), x + 1 < g
      rw [List.take_append_of_le_length hm'le]
      intro x hx
      have := hgstake x hx
      have hgx : st.time + e.d1 ≤ g := by rw [hgdef]; linarith
      linarith
    · show (bufX ++ [g]).length ≤ qps
      rw [List.length_append, hbeq]
      simp only [List.length_singleton]
      omega
    · intro x hx
      rcases List.mem_append.1 hx with hx1 | hx2
      · exact le_trans (hle x hx1) htg
      · simp only [List.mem_singleton] at hx2
        exact le_of_eq hx2
    · rw [List.pairwise_append]
      refine ⟨hsort, List.pairwise_singleton _ _, ?_⟩
      intro x hx y hy
      simp only [List.mem_singleton] at hy
      subst hy
      exact le_trans (hle x hx) htg
    · -- spread property with the new last grant
      intro i x y hx hy
      by_cases hiq : i + qps < gs.length
      · rw [List.getElem?_append_left hiq] at hy
        rw [List.getElem?_append_left (by omega)] at hx
        exact hspread i x y hx hy
      · by_cases hiq2 : i + qps = gs.length
        · have hyg : y = g := by
            rw [List.getElem?_append_right (by omega), hiq2, Nat.sub_self] at hy
            simpa using hy.symm
          have hxg : gs[i]? = some x := by
            rw [List.getElem?_append_left (by omega)] at hx
            exact hx
          have him : i < m + k₁ := by omega
          have hxtake : (gs.take (m + k₁))[i]? = some x := by
            rw [List.getElem?_take_of_lt him]
            exact hxg
          have hxmem : x ∈ gs.take (m + k₁) := List.getElem?_mem hxtake
          have hx1 := hgstake x hxmem
          have hgx : st.time + e.d1 ≤ g := by rw [hgdef, hnweq]; linarith
          rw [hyg]
          linarith
        · have hnone : (gs ++ [g]).length ≤ i + qps := by
            rw [List.length_append, List.length_singleton]
            omega
          rw [List.getElem?_eq_none hnone] at hy
          cases hy
  · -- sleep branch: the head of the full window was waited out and purged
    have hB1q : (purge (st.time + e.d1) st.buf).length = qps := by
      have h1 : (purge (st.time + e.d1) st.buf).length ≤ st.buf.length := by
        rw [hpeq, List.length_drop]
        omega
      omega
    have hm'eq : m + k₁ = gs.length - qps := by omega
    have hqgs : qps ≤ gs.length := by omega
    -- the head of the purged deque is gs[m + k₁]
    obtain ⟨hd, tl, hB1⟩ : ∃ hd tl, purge (st.time + e.d1) st.buf = hd :: tl := by
      rcases hcc : purge (st.time + e.d1) st.buf with - | ⟨hd, tl⟩
      · rw [hcc] at hB1q
        simp at hB1q
        omega
      · exact ⟨hd, tl, rfl⟩
    have hheadD : (purge (st.time + e.d1) st.buf).headD 0 = hd := by rw [hB1]; rfl
    have hghead : gs[m + k₁]? = some hd := by
      have h0 : (purge (st.time + e.d1) st.buf)[0]? = some hd := by
        rw [hB1]
        exact List.getElem?_cons_zero
      rw [hbuf1, List.getElem?_drop] at h0
      simpa using h0
    have hdg : hd + 1 < g := by
      rw [hheadD] at hb0
      rw [hgdef]
      linarith
    -- the second purge removes at least the head
    obtain ⟨k₂, hk₂, hpeq2, hpdrop2⟩ := purge_spec nowX (purge (st.time + e.d1) st.buf)
    have hbufX : bufX = gs.drop (m + k₁ + k₂) := by
      rw [hbeq, hpeq2, hbuf1, List.drop_drop]
    have hm''le : m + k₁ + k₂ ≤ gs.length := by
      have : k₂ ≤ qps := by rw [← hB1q]; exact hk₂
      omega
    have hbufXlen : bufX.length < qps := by
      have hpos : (1 : ℚ) < nowX - hd := by
        rw [hheadD] at hb0
        linarith
      have hstep : purge nowX (purge (st.time + e.d1) st.buf) = purge nowX tl := by
        rw [hB1]
        unfold purge
        rw [List.dropWhile_cons_of_pos (by simpa using hpos)]
      rw [hbeq, hstep]
      have hlen2 : (purge nowX tl).length ≤ tl.length :=
        (List.dropWhile_sublist _).length_le
      have : tl.length + 1 = qps := by
        have := hB1q
        rw [hB1] at this
        simpa using this
      omega
    refine ⟨m + k₁ + k₂, by simpa using le_trans hm''le (by omega), ?_, ?_, ?_, ?_, ?_, ?_⟩
    · show bufX ++ [g] = (gs ++ [g]).drop (m + k₁ + k₂)
      rw [List.drop_append_of_le_length hm''le, hbufX]
    · show ∀ x ∈ (gs ++ [g]).take (m + k₁ + k₂), x + 1 < g
      rw [List.take_append_of_le_length hm''le]
      intro x hx
      rw [List.take_add] at hx
      rcases List.mem_append.1 hx with hx1 | hx2
      · have := hgstake x hx1
        have hgx : st.time + e.d1 ≤ g := by linarith
        linarith
      · rw [← hbuf1] at hx2
        have := hpdrop2 x hx2
        linarith
    · show (bufX ++ [g]).length ≤ qps
      rw [List.length_append, List.length_singleton]
      omega
    · intro x hx
      rcases List.mem_append.1 hx with hx1 | hx2
      · exact le_trans (hle x hx1) htg
      · simp only [List.mem_singleton] at hx2
        exact le_of_eq hx2
    · rw [List.pairwise_append]
      refine ⟨hsort, List.pairwise_singleton _ _, ?_⟩
      intro x hx y hy
      simp only [List.mem_singleton] at hy
      subst hy
      exact le_trans (hle x hx) htg
    · intro i x y hx hy
      by_cases hiq : i + qps < gs.length
      · rw [List.getElem?_append_left hiq] at hy
        rw [List.getElem?_append_left (by omega)] at hx
        exact hspread i x y hx hy
      · by_cases hiq2 : i + qps = gs.length
        · have hyg : y = g := by
            rw [List.getElem?_append_right (by omega), hiq2, Nat.sub_self] at hy
            simpa using hy.symm
          have hieq : i = m + k₁ := by omega
          have hxhd : x = hd := by
            rw [List.getElem?_append_left (by omega), hieq, hghead] at hx
            simpa using hx.symm
          rw [hyg, hxhd]
          exact hdg
        · have hnone : (gs ++ [g]).length ≤ i + qps := by
            rw [List.length_append, List.length_singleton]
            omega
          rw [List.getElem?_eq_none hnone] at hy
          cases hy

lemma runAux_inv (qps : ℕ) (hq : 1 ≤ qps) :
    ∀ (es : List AcqEnv) (gs : List ℚ) (st : LimState),
      (∀ e ∈ es, 0 ≤ e.d1 ∧ 0 < e.eps ∧ 0 ≤ e.d2) → LimInv qps gs st →
      List.Pairwise (· ≤ ·) (gs ++ runAux qps st es) ∧
        SpreadOK qps (gs ++ runAux qps st es) := by
  intro es
  induction es with
  | nil =>
    intro gs st _ hinv
    obtain ⟨m, -, -, -, -, -, hsort, hspread⟩ := hinv
    rw [runAux]
    rw [List.append_nil]
    exact ⟨hsort, hspread⟩
  | cons e es ih =>
    intro gs st hv hinv
    have he := hv e (List.mem_cons_self e es)
    have hstep := acquire_inv qps hq gs st e he.1 he.2.1 he.2.2 hinv
    have hnext := ih (gs ++ [(acquire qps st e).2]) (acquire qps st e).1
      (fun d hd => hv d (List.mem_cons_of_mem e hd)) hstep
    rw [runAux, show gs ++ (acquire qps st e).2 :: runAux qps (acquire qps st e).1 es =
        (gs ++ [(acquire qps st e).2]) ++ runAux qps (acquire qps st e).1 es from by simp]
    exact hnext

lemma sorted_getElem?_mono (l : List ℚ) (hs : List.Pairwise (· ≤ ·) l) {i j : ℕ} {a b : ℚ}
    (hij : i ≤ j) (ha : l[i]? = some a) (hb : l[j]? = some b) : a ≤ b := by
  have hj : j < l.length := by
    by_contra hc
    rw [List.getElem?_eq_none (by omega)] at hb
    cases hb
  have hi : i < l.length := by omega
  rw [List.getElem?_eq_getElem hi] at ha
  rw [List.getElem?_eq_getElem hj] at hb
  have ha2 : l.get ⟨i, hi⟩ = a := Option.some_inj.1 ha
  have hb2 : l.get ⟨j, hj⟩ = b := Option.some_inj.1 hb
  rcases eq_or_lt_of_le hij with rfl | hlt
  · rw [← ha2, ← hb2]
  · rw [← ha2, ← hb2]
    exact List.pairwise_iff_get.1 hs ⟨i, hi⟩ ⟨j, hj⟩ hlt

lemma sorted_spread_window (N : ℕ) (hN : 1 ≤ N) :
    ∀ (l : List ℚ), List.Pairwise (· ≤ ·) l → SpreadOK N l →
      ∀ s : ℚ, l.countP (fun t => decide (s ≤ t) && decide (t ≤ s + 1)) ≤ N := by
  intro l
  induction l with
  | nil => intro _ _ s; simp
  | cons x xs ih =>
    intro hsort hspread s
    have hsort2 : List.Pairwise (· ≤ ·) xs := hsort.of_cons
    have hspread2 : SpreadOK N xs := by
      intro i a b ha hb
      refine hspread (i + 1) a b ?_ ?_
      · rw [List.getElem?_cons_succ]
        exact ha
      · rw [show i + 1 + N = (i + N) + 1 from by omega, List.getElem?_cons_succ]
        exact hb
    by_cases hx : (decide (s ≤ x) && decide (x ≤ s + 1)) = true
    · rw [List.countP_cons_of_pos (fun t => decide (s ≤ t) && decide (t ≤ s + 1)) xs hx]
      simp only [Bool.and_eq_true, decide_eq_true_eq] at hx
      by_cases hlen : (x :: xs).length ≤ N
      · have h1 := List.countP_le_length (fun t => decide (s ≤ t) && decide (t ≤ s + 1))
          (l := xs)
        have h2 : xs.length + 1 ≤ N := by simpa using hlen
        omega
      · push_neg at hlen
        have hNlt : N - 1 < xs.length := by
          simp only [List.length_cons] at hlen
          omega
        obtain ⟨y, hy⟩ : ∃ y, xs[N - 1]? = some y := by
          rw [List.getElem?_eq_getElem hNlt]
          exact ⟨_, rfl⟩
        have hxy : x + 1 < y := by
          apply hspread 0 x y List.getElem?_cons_zero
          rw [show 0 + N = (N - 1) + 1 from by omega, List.getElem?_cons_succ]
          exact hy
        have hcount0 :
            (xs.drop (N - 1)).countP (fun t => decide (s ≤ t) && decide (t ≤ s + 1)) = 0 := by
          rw [List.countP_eq_zero]
          intro a ha
          obtain ⟨j, hjl, haj⟩ := List.mem_iff_getElem.1 ha
          have haj2 : xs[(N - 1) + j]? = some a := by
            have := List.getElem?_drop xs (N - 1) j
            rw [List.getElem?_eq_getElem hjl] at this
            rw [← this, haj]
          have hya : y ≤ a := sorted_getElem?_mono xs hsort2 (by omega) hy haj2
          simp only [Bool.and_eq_true, decide_eq_true_eq, not_and]
          intro h1 h2
          linarith [hx.1]
        have hsplit : xs.countP (fun t => decide (s ≤ t) && decide (t ≤ s + 1)) =
            (xs.take (N - 1)).countP (fun t => decide (s ≤ t) && decide (t ≤ s + 1)) +
            (xs.drop (N - 1)).countP (fun t => decide (s ≤ t) && decide (t ≤ s + 1)) := by
          rw [← List.countP_append, List.take_append_drop]
        have htake : (xs.take (N - 1)).countP (fun t => decide (s ≤ t) && decide (t ≤ s + 1)) ≤
            N - 1 := by
          refine le_trans (List.countP_le_length _) ?_
          rw [List.length_take]
          omega
        omega
    · rw [List.countP_cons_of_neg (fun t => decide (s ≤ t) && decide (t ≤ s + 1)) xs
        (by simpa using hx)]
      exact ih hsort2 hspread2 s

/-- C3: in the model of serialized `acquire` calls over a monotone rational
clock — the lock serializes the bodies, `time.sleep(d)` suspends for at
least `d` and the next clock reading is strictly later (`eps > 0`), other
delays are arbitrary nonnegative — any run of `RateLimiter(qps)` with
`qps ≥ 1` grants at most `qps` acquisitions inside any closed one-second
interval `[s, s + 1]`, hence inside any sliding one-second window,
regardless of how many workers issue the calls. -/
theorem rateLimiter_sliding_window_bound (qps : ℕ) (hq : 1 ≤ qps) (es : List AcqEnv)
    (hv : ∀ e ∈ es, 0 ≤ e.d1 ∧ 0 < e.eps ∧ 0 ≤ e.d2) (s : ℚ) :
    (RateLimiter_run qps es).countP
      (fun t => decide (s ≤ t) && decide (t ≤ s + 1)) ≤ qps := by
  have hmax : max 1 qps = qps := max_eq_right hq
  have hinv0 : LimInv qps [] ⟨[], 0⟩ := by
    refine ⟨0, by simp, rfl, by simp, by simp, by simp, List.Pairwise.nil, ?_⟩
    intro i x y hxh
    simp at hxh
  have hmain := runAux_inv qps hq es [] ⟨[], 0⟩ hv hinv0
  rw [List.nil_append] at hmain
  have hfin := sorted_spread_window qps hq (runAux qps ⟨[], 0⟩ es) hmain.1 hmain.2 s
  rw [RateLimiter_run, hmax]
  exact hfin

/-- Witness for C3: two back-to-back acquisitions at `qps = 1` with
unit-overshoot sleeps; the window `[0, 1]` holds at most one grant. -/
theorem rateLimiter_sliding_window_bound_witness :
    (RateLimiter_run 1 [⟨0, 1, 0⟩, ⟨0, 1, 0⟩]).countP
      (fun t => decide ((0 : ℚ) ≤ t) && decide (t ≤ (0 : ℚ) + 1)) ≤ 1 :=
  rateLimiter_sliding_window_bound 1 (by decide) [⟨0, 1, 0⟩, ⟨0, 1, 0⟩] (by decide) 0

end Pipeline
